import Mathlib

/-!
Shallow embedding of the random_coffee_bot registration / profile workflow.

Strings are modelled as lists of characters (`Str`), instants as natural
numbers (seconds, UTC).  Database rows become Lean structures; each aiogram
handler becomes a pure function from the persisted state and the inbound
event to the updated state plus an outbound reply intent.  `SkipHandler`
(handler declines the event) is modelled by an `Option` result.
-/

namespace RCB

abbrev Str := List Char

/-- Whitespace characters removed by Python's `str.strip()` (ASCII subset). -/
def is_ws (c : Char) : Bool :=
  c = ' ' || c = '\t' || c = '\n' || c = '\r' || c = '\x0b' || c = '\x0c'

/-- `str.strip()`: drop leading and trailing whitespace. -/
def trim (s : Str) : Str :=
  ((s.dropWhile is_ws).reverse.dropWhile is_ws).reverse

/-- `str.lower()` (per-character lowering). -/
def lower (s : Str) : Str := s.map Char.toLower

/-- `str.isdigit()` (ASCII digits; empty string is not a digit string). -/
def isDigitStr (s : Str) : Bool := !s.isEmpty && s.all Char.isDigit

/-- `int(text)` for a digit string. -/
def natOfDigits (s : Str) : Nat :=
  s.foldl (fun acc c => 10 * acc + (c.toNat - '0'.toNat)) 0

/-- `email.split("@", 1)`: split at the first `@`, if any. -/
def splitFirstAt (sep : Char) : Str → Option (Str × Str)
  | [] => none
  | c :: rest =>
    if c = sep then some ([], rest)
    else (splitFirstAt sep rest).map (fun p => (c :: p.1, p.2))

/-- The separator class of `re.split(r"[,\n;]+", raw)`. -/
def is_sep (c : Char) : Bool := c = ',' || c = ';' || c = '\n'

/-- Splitting on single separator characters; composed with the nonempty
filter in `normalize_interests` this embeds the `[,\n;]+` split (runs of
separators only contribute empty pieces, which that filter removes). -/
def splitSepsAux (cur : Str) : Str → List Str
  | [] => [cur.reverse]
  | c :: rest =>
    if is_sep c then cur.reverse :: splitSepsAux [] rest
    else splitSepsAux (c :: cur) rest

def splitSeps (raw : Str) : List Str := splitSepsAux [] raw

/-- `",".join(l)`-style rejoin used to feed `normalize_interests` its own
output back. -/
def joinComma : List Str → Str
  | [] => []
  | [x] => x
  | x :: xs => x ++ ',' :: joinComma xs

-- ------------------------- app/utils/security.py ------------------------- --

/-- `validate_email` error cases (messages elided). -/
inductive EmailErr
  | format
  | domain
deriving DecidableEq, Repr

/-- `validate_email(email, regex, allowed_domains)`; the compiled regex is
carried as an abstract predicate (it is configuration, `EMAIL_REGEX`).
`none` means valid.  A missing `@` raises inside `split("@",1)[1]` and is
caught as a format error, mirroring the `try/except`. -/
def validate_email (email : Str) (regex : Str → Bool) (allowed_domains : List Str) :
    Option EmailErr :=
  if ¬ regex email then some .format
  else if allowed_domains ≠ [] then
    match splitFirstAt '@' email with
    | none => some .format
    | some (_, dom) =>
      if lower dom ∈ allowed_domains.map lower then none else some .domain
  else none

/-- `contains_banned_words(text, banned_words)`: first banned word (stripped,
lowered, nonempty) occurring case-insensitively as a substring; `none` if
no banned word occurs. -/
def contains_banned_words (text : Str) (banned_words : List Str) : Option Str :=
  let low := lower text
  banned_words.findSome? fun w =>
    let w' := lower (trim w)
    if w' ≠ [] ∧ w' <:+: low then some w' else none

/-- Rejection causes of `normalize_interests` (messages elided). -/
inductive NormErr
  | tooMany
  | badLen (interest : Str)
  | bannedWord (interest : Str)
  | sumTooLong
deriving DecidableEq, Repr

/-- Per-item check of the `for interest in interests:` loop. -/
def interest_error (banned_words : List Str) (it : Str) : Option NormErr :=
  if ¬ (1 ≤ it.length ∧ it.length ≤ 50) then some (.badLen it)
  else
    match contains_banned_words it banned_words with
    | some _ => some (.bannedWord it)
    | none => none

/-- First error over the items, like the loop's first `return`. -/
def first_error (banned_words : List Str) (items : List Str) : Option NormErr :=
  items.findSome? (interest_error banned_words)

/-- The dedup loop with its `seen` set of lowered values (kept as a list;
membership matches set membership). -/
def dedupCI_loop (seen : List Str) : List Str → List Str
  | [] => []
  | it :: rest =>
    if seen.contains (lower it) then dedupCI_loop seen rest
    else it :: dedupCI_loop (lower it :: seen) rest

def dedupCI (l : List Str) : List Str := dedupCI_loop [] l

/-- `normalize_interests(raw, banned_words)`: returns
`(some list, none)` on success, `(none, some err)` on rejection. -/
def normalize_interests (raw : Str) (banned_words : List Str) :
    Option (List Str) × Option NormErr :=
  if trim raw = [] then (some [], none)
  else
    let parts := splitSeps raw
    let interests := (parts.map trim).filter (fun p => !p.isEmpty)
    if interests.length > 30 then (none, some .tooMany)
    else
      match first_error banned_words interests with
      | some e => (none, some e)
      | none =>
        let result := dedupCI interests
        if (result.map List.length).sum > 300 then (none, some .sumTooLong)
        else (some result, none)

-- -------------------- spec-side double for claim C8 --------------------- --

/-- Spec-side dedup: keep exactly the first occurrence (its casing, in
order) of each case-insensitive value. -/
def firstOccurrences : List Str → List Str
  | [] => []
  | x :: xs =>
    x :: firstOccurrences (xs.filter (fun y => !(lower y == lower x)))
termination_by l => l.length
decreasing_by
  simp only [List.length_cons]
  exact Nat.lt_succ_of_le (List.length_filter_le _ _)

/-- Spec-side restatement of `normalize_interests` following the spec's
words: split on comma/semicolon/newline, trim each item, reject more than
30 items, reject any item of length outside 1–50 or containing a banned
word (case-insensitive), deduplicate case-insensitively keeping the first
occurrence, reject a summed length over 300, and return `[]` for input
that is empty after trimming.  Only acceptance and the produced list are
specified (messages elided). -/
def normalizeInterestsSpec (raw : Str) (banned_words : List Str) :
    Option (List Str) :=
  if trim raw = [] then some []
  else
    let items := ((splitSeps raw).map trim).filter (fun p => !p.isEmpty)
    if items.length > 30 then none
    else if items.any (fun it => it.length < 1 || 50 < it.length) then none
    else if items.any (fun it => (contains_banned_words it banned_words).isSome) then none
    else
      let result := firstOccurrences items
      if 300 < (result.map List.length).sum then none
      else some result

-- ----------------------------- app/models.py ----------------------------- --

/-- `users.status` (`imported` appears in a comment only; the handlers use
these three). -/
inductive Status
  | new
  | active
  | blocked
deriving DecidableEq, Repr

/-- `users.stage`. -/
inductive Stage
  | new
  | verifying_email
  | verifying_email_error
  | verifying_code
  | verifying_code_error
  | authorized
  | profile_name
  | profile_photo
  | profile_bio
  | profile_age
  | profile_interests
  | profile_review
  | profile_filled
deriving DecidableEq, Repr

/-- Stages handled by `registration.on_email_or_code`. -/
def regStages : List Stage :=
  [.new, .verifying_email, .verifying_email_error, .verifying_code, .verifying_code_error]

/-- The e-mail entry stages. -/
def emailStages : List Stage := [.new, .verifying_email, .verifying_email_error]

/-- The code entry stages. -/
def codeStages : List Stage := [.verifying_code, .verifying_code_error]

/-- Stages handled by `profile.on_profile_text`. -/
def profileTextStages : List Stage :=
  [.profile_name, .profile_bio, .profile_age, .profile_interests]

/-- A `users` row (photo references and interests inlined from their JSON
bags; `import_payload["profile_name"]` inlined as `import_name`). -/
structure UserRec where
  telegram_id : Nat
  username : Option Str
  status : Status
  stage : Stage
  email : Option Str
  email_attempts : Nat
  otp_attempts : Nat
  name : Option Str
  photos : List Str
  bio : Option Str
  age : Option Nat
  interests : List Str
  origin : Str
  import_name : Option Str
  last_activity : Nat
deriving DecidableEq, Repr

/-- An `otp` row. -/
structure OtpRec where
  code : Str
  session_id : Str
  resend_count : Nat
  last_sent_at : Nat
  created_at : Nat
  expires_at : Nat
  used_at : Option Nat
deriving DecidableEq, Repr

/-- An `auth_attempts` row (the timestamp is represented by list position:
ledgers are kept newest-first). -/
structure AuthAttemptRec where
  typ : Str
  value : Str
deriving DecidableEq, Repr

/-- An `admin_log` row for `auth_block_request` (payload flattened). -/
structure AdminLogRec where
  admin_telegram_id : Nat
  action : Str
  reason : Str
  typ : Str
  attempts : List Str
deriving DecidableEq, Repr

/-- The persisted state touched by one account's events: its user row, its
OTP rows (newest `created_at` first), its attempt ledger (newest first),
the admin log (newest first), and the e-mail values bound to *other*
accounts (what the `User.email == email, User.telegram_id != ...` query
consults). -/
structure DB where
  user : UserRec
  otps : List OtpRec
  attempts : List AuthAttemptRec
  admin_log : List AdminLogRec
  other_emails : List Str
deriving DecidableEq, Repr

-- ----------------------------- app/config.py ----------------------------- --

/-- The configuration surface the embedded handlers read. -/
structure Settings where
  admin_chat_id : Option Int
  email_regex : Str → Bool
  allowed_domains : List Str
  otp_ttl_seconds : Nat
  otp_cooldown_seconds : Nat
  resend_max_per_session : Nat
  email_max_attempts : Nat
  otp_max_attempts : Nat
  banned_words : List Str

-- ------------------------ app/handlers/registration.py ------------------- --

def emailT : Str := "email".toList
def otpT : Str := "otp".toList

/-- Pruning step of `_log_attempt`: keep only the first `k` records of the
given type, all records of other types. -/
def pruneTyp (typ : Str) : Nat → List AuthAttemptRec → List AuthAttemptRec
  | _, [] => []
  | k, a :: rest =>
    if a.typ = typ then
      if k = 0 then pruneTyp typ 0 rest
      else a :: pruneTyp typ (k - 1) rest
    else a :: pruneTyp typ k rest

/-- `_log_attempt`: insert the record, then keep only the newest 3 of this
user/type. -/
def log_attempt (typ value : Str) (ledger : List AuthAttemptRec) :
    List AuthAttemptRec :=
  pruneTyp typ 3 (⟨typ, value⟩ :: ledger)

/-- `_last_attempts` (limit 3): newest 3 records of the type. -/
def last_attempts (typ : Str) (ledger : List AuthAttemptRec) :
    List AuthAttemptRec :=
  (ledger.filter (fun a => a.typ = typ)).take 3

/-- Advisory strings of `_send_or_resend_otp`. -/
inductive Warn
  | cooldown
  | resendLimit
  | resent
deriving DecidableEq, Repr

/-- First unused OTP row (the `Otp.used_at.is_(None)` query, newest first). -/
def firstUnused (otps : List OtpRec) : Option OtpRec :=
  (otps.filter (fun o => o.used_at.isNone)).head?

/-- In-place mutation of the resent row: bump `resend_count`, refresh
`last_sent_at` on the first unused row. -/
def resendFirstUnused (now : Nat) : List OtpRec → List OtpRec
  | [] => []
  | o :: rest =>
    if o.used_at.isNone then
      { o with resend_count := o.resend_count + 1, last_sent_at := now } :: rest
    else o :: resendFirstUnused now rest

/-- `_send_or_resend_otp`.  The freshly generated code and session id are
parameters (`generate_otp` / `uuid4` are nondeterministic).  Returns the
updated OTP rows, the `delivered` flag, and the advisory. -/
def send_or_resend_otp (s : Settings) (now : Nat) (freshCode freshSession : Str)
    (otps : List OtpRec) : List OtpRec × Bool × Option Warn :=
  match firstUnused otps with
  | some existing =>
    if now < existing.expires_at then
      if now < existing.last_sent_at + s.otp_cooldown_seconds then
        (otps, true, some .cooldown)
      else if s.resend_max_per_session ≤ existing.resend_count then
        (otps, true, some .resendLimit)
      else
        (resendFirstUnused now otps, true, some .resent)
    else
      ({ code := freshCode, session_id := freshSession, resend_count := 0,
         last_sent_at := now, created_at := now,
         expires_at := now + s.otp_ttl_seconds, used_at := none } :: otps,
       true, none)
  | none =>
    ({ code := freshCode, session_id := freshSession, resend_count := 0,
       last_sent_at := now, created_at := now,
       expires_at := now + s.otp_ttl_seconds, used_at := none } :: otps,
     true, none)

/-- `_notify_admin_on_block`: if no admin chat is configured, nothing is
written; otherwise one `admin_log` row carrying the reason, the category
and the last 3 ledger values.  (The chat message send is fire-and-forget
transport, outside the store.) -/
def notify_admin_on_block (s : Settings) (reason typ : Str)
    (ledger : List AuthAttemptRec) (adminLog : List AdminLogRec) :
    List AdminLogRec :=
  match s.admin_chat_id with
  | none => adminLog
  | some _ =>
    { admin_telegram_id := 0, action := "auth_block_request".toList,
      reason := reason, typ := typ,
      attempts := (last_attempts typ ledger).map (·.value) } :: adminLog

/-- Outbound reply intents of `on_email_or_code`. -/
inductive Reply
  | blockedNotice
  | emailTaken
  | emailInvalid (remaining : Nat)
  | blockedEmail
  | codeSentPrompt (warn : Option Warn)
  | expectDigits
  | codeNotFound
  | codeExpired
  | codeUsed
  | codeWrong (remaining : Nat)
  | blockedOtp
  | authSuccess
  | noReply
deriving DecidableEq, Repr

def reasonEmail : Str := "Слишком много неверных адресов".toList
def reasonOtp : Str := "Слишком много неверных OTP-кодов".toList

/-- The e-mail branch of `on_email_or_code` (user row already refreshed,
text already stripped). -/
def handle_email (s : Settings) (now : Nat) (freshCode freshSession : Str)
    (db : DB) (text : Str) : DB × Reply :=
  let ledger := log_attempt emailT text db.attempts
  if text ∈ db.other_emails then
    ({ db with attempts := ledger }, .emailTaken)
  else
    match validate_email text s.email_regex s.allowed_domains with
    | some _ =>
      let user := { db.user with
        email_attempts := db.user.email_attempts + 1, stage := .verifying_email }
      if s.email_max_attempts < user.email_attempts then
        let user := { user with status := .blocked, stage := .verifying_email_error }
        ({ db with
            user := user
            attempts := ledger
            admin_log := notify_admin_on_block s reasonEmail emailT ledger db.admin_log },
         .blockedEmail)
      else
        ({ db with user := user, attempts := ledger },
         .emailInvalid (s.email_max_attempts - user.email_attempts + 1))
    | none =>
      let user := { db.user with
        email := some text, email_attempts := 0, stage := .verifying_code }
      let r := send_or_resend_otp s now freshCode freshSession db.otps
      ({ db with user := user, attempts := ledger, otps := r.1 },
       .codeSentPrompt r.2.2)

/-- Mark the consulted (newest) OTP row used. -/
def markHeadUsed (now : Nat) : List OtpRec → List OtpRec
  | [] => []
  | o :: rest => { o with used_at := some now } :: rest

/-- The OTP branch of `on_email_or_code` (user row already refreshed, text
already stripped). -/
def handle_code (s : Settings) (now : Nat) (db : DB) (text : Str) : DB × Reply :=
  if ¬ (isDigitStr text ∧ 4 ≤ text.length ∧ text.length ≤ 8) then
    (db, .expectDigits)
  else
    let ledger := log_attempt otpT text db.attempts
    match db.otps.head? with
    | none => ({ db with attempts := ledger }, .codeNotFound)
    | some otp_row =>
      if otp_row.expires_at ≤ now then
        ({ db with attempts := ledger }, .codeExpired)
      else match otp_row.used_at with
        | some _ => ({ db with attempts := ledger }, .codeUsed)
        | none =>
          if text ≠ otp_row.code then
            let user := { db.user with
              otp_attempts := db.user.otp_attempts + 1, stage := .verifying_code }
            if s.otp_max_attempts < user.otp_attempts then
              let user := { user with status := .blocked, stage := .verifying_code_error }
              ({ db with
                  user := user
                  attempts := ledger
                  admin_log := notify_admin_on_block s reasonOtp otpT ledger db.admin_log },
               .blockedOtp)
            else
              ({ db with user := user, attempts := ledger },
               .codeWrong (s.otp_max_attempts - user.otp_attempts + 1))
          else
            ({ db with
                user := { db.user with
                  status := .active
                  stage := .authorized
                  email_attempts := 0
                  otp_attempts := 0 }
                attempts := ledger
                otps := markHeadUsed now db.otps },
             .authSuccess)

/-- `on_email_or_code`: the non-command text handler of the registration
router.  `none` models `SkipHandler` (stage outside the registration set);
otherwise `last_activity` is refreshed, the text stripped, the blocked
gate applied, then the e-mail or OTP branch runs. -/
def on_email_or_code (s : Settings) (db : DB) (now : Nat)
    (freshCode freshSession : Str) (input : Str) : Option (DB × Reply) :=
  if db.user.stage ∈ regStages then
    let db := { db with user := { db.user with last_activity := now } }
    let text := trim input
    if db.user.status = .blocked then some (db, .blockedNotice)
    else if db.user.stage ∈ emailStages then
      some (handle_email s now freshCode freshSession db text)
    else if db.user.stage ∈ codeStages then
      some (handle_code s now db text)
    else some (db, .noReply)
  else none

-- -------------------------- app/handlers/profile.py ---------------------- --

/-- Outbound reply intents of the profile handlers. -/
inductive ProfileReply
  | blockedNotice
  | nameBadLength
  | nameBanned (word : Str)
  | askPhoto
  | bioTooLong
  | bioBanned (word : Str)
  | askAge
  | ageBad
  | askInterests
  | interestsRejected (e : NormErr)
  | reviewPreview
  | askName
  | askBio
deriving DecidableEq, Repr

/-- `on_profile_text`: the non-command text handler of the profile router
(included before the registration router).  `none` models `SkipHandler`
(stage outside its set). -/
def on_profile_text (s : Settings) (db : DB) (now : Nat) (input : Str) :
    Option (DB × ProfileReply) :=
  if db.user.stage ∈ profileTextStages then
    let db := { db with user := { db.user with last_activity := now } }
    let text := trim input
    if db.user.status = .blocked then some (db, .blockedNotice)
    else if db.user.stage = .profile_name then
      if ¬ (2 ≤ text.length ∧ text.length ≤ 100) then some (db, .nameBadLength)
      else
        match contains_banned_words text s.banned_words with
        | some w => some (db, .nameBanned w)
        | none =>
          some ({ db with user := { db.user with
                    last_activity := now
                    name := some text
                    stage := .profile_photo } },
                .askPhoto)
    else if db.user.stage = .profile_bio then
      if 500 < text.length then some (db, .bioTooLong)
      else
        match contains_banned_words text s.banned_words with
        | some w => some (db, .bioBanned w)
        | none =>
          some ({ db with user := { db.user with
                    last_activity := now
                    bio := some text
                    stage := .profile_age } },
                .askAge)
    else if db.user.stage = .profile_age then
      if ¬ isDigitStr text then some (db, .ageBad)
      else
        let age := natOfDigits text
        if ¬ (18 ≤ age ∧ age ≤ 50) then some (db, .ageBad)
        else
          some ({ db with user := { db.user with
                    last_activity := now
                    age := some age
                    stage := .profile_interests } },
                .askInterests)
    else
      match normalize_interests text s.banned_words with
      | (_, some e) => some (db, .interestsRejected e)
      | (interests, none) =>
        some ({ db with user := { db.user with
                  last_activity := now
                  interests := interests.getD []
                  stage := .profile_review } },
              .reviewPreview)
  else none

/-- The field selector of `cb_prof_edit_field`'s callback data. -/
inductive EditField
  | name
  | photo
  | bio
  | age
  | interests
deriving DecidableEq, Repr

/-- `cb_prof_edit_field`: jump from review to the chosen field's collection
stage (no blocked gate, no `last_activity` refresh in the source). -/
def cb_prof_edit_field (db : DB) (field : EditField) : DB × ProfileReply :=
  match field with
  | .name => ({ db with user := { db.user with stage := .profile_name } }, .askName)
  | .photo => ({ db with user := { db.user with stage := .profile_photo } }, .askPhoto)
  | .bio => ({ db with user := { db.user with stage := .profile_bio } }, .askBio)
  | .age => ({ db with user := { db.user with stage := .profile_age } }, .askAge)
  | .interests => ({ db with user := { db.user with stage := .profile_interests } }, .askInterests)

/-- The collection stage each `prof:edit:<field>` callback jumps to. -/
def fieldStage : EditField → Stage
  | .name => .profile_name
  | .photo => .profile_photo
  | .bio => .profile_bio
  | .age => .profile_age
  | .interests => .profile_interests

-- --------------------------- app/handlers/start.py ----------------------- --

/-- Outbound reply intents of `cmd_start`. -/
inductive StartReply
  | blockedNotice
  | askEmail
  | codeAlreadySent
  | gotoProfile
  | filledPreview
  | continueProfile
  | fallback
deriving DecidableEq, Repr

/-- `cmd_start`: `/start` for an existing account (creation of unseen
identities is the `_get_or_create_user` insert; here the account exists).
The stored username is synchronized with the sender's current handle,
`last_activity` refreshed, then the blocked gate and the stage dispatch. -/
def cmd_start (db : DB) (now : Nat) (senderUsername : Option Str) :
    DB × StartReply :=
  let user := db.user
  let user :=
    match senderUsername with
    | some u => if user.username ≠ some u then { user with username := some u } else user
    | none => user
  let user := { user with last_activity := now }
  if user.status = .blocked then ({ db with user := user }, .blockedNotice)
  else if user.stage ∈ emailStages then
    ({ db with user := { user with stage := .verifying_email } }, .askEmail)
  else if user.stage ∈ codeStages then
    ({ db with user := user }, .codeAlreadySent)
  else if user.stage = .authorized then
    ({ db with user := user }, .gotoProfile)
  else if user.stage = .profile_filled then
    ({ db with user := user }, .filledPreview)
  else if user.stage ∈ ([.profile_name, .profile_photo, .profile_bio,
      .profile_age, .profile_interests, .profile_review] : List Stage) then
    ({ db with user := user }, .continueProfile)
  else ({ db with user := user }, .fallback)

-- ------------------------------- dispatcher ------------------------------ --

/-- Dispatch of a plain (non-command) text event: the profile router is
included before the registration router; each raises `SkipHandler` outside
its stage set, and an event neither claims is dropped. -/
def dispatch_text (s : Settings) (db : DB) (now : Nat)
    (freshCode freshSession : Str) (input : Str) :
    Option (DB × (ProfileReply ⊕ Reply)) :=
  match on_profile_text s db now input with
  | some r => some (r.1, Sum.inl r.2)
  | none =>
    (on_email_or_code s db now freshCode freshSession input).map
      (fun r => (r.1, Sum.inr r.2))

-- ------------------------- concrete test fixtures ------------------------ --

/-- A settings record with no admin chat configured and the default limits. -/
def exSettings : Settings :=
  { admin_chat_id := none, email_regex := fun _ => false, allowed_domains := [],
    otp_ttl_seconds := 120, otp_cooldown_seconds := 120, resend_max_per_session := 3,
    email_max_attempts := 3, otp_max_attempts := 3, banned_words := [] }

/-- The same settings with an admin chat configured. -/
def exSettingsAdmin : Settings := { exSettings with admin_chat_id := some 99 }

/-- An account at the OTP-entry stage with three wrong codes already
counted. -/
def exUser : UserRec :=
  { telegram_id := 7, username := none, status := .active, stage := .verifying_code,
    email := some "a@corp.com".toList, email_attempts := 0, otp_attempts := 3,
    name := none, photos := [], bio := none, age := none, interests := [],
    origin := "self".toList, import_name := none, last_activity := 0 }

/-- An unexpired, unused code issued at 10 with TTL 120. -/
def exOtp : OtpRec :=
  { code := "123456".toList, session_id := "s1".toList, resend_count := 0,
    last_sent_at := 10, created_at := 10, expires_at := 130, used_at := none }

def exDb : DB :=
  { user := exUser, otps := [exOtp], attempts := [], admin_log := [], other_emails := [] }

/-- A blocked account at the e-mail entry stage. -/
def exDbBlocked : DB :=
  { exDb with user := { exUser with status := .blocked, stage := .verifying_email } }

/-- An account sitting in the profile review stage. -/
def exDbReview : DB :=
  { exDb with user := { exUser with stage := .profile_review } }

-- ------------------------------ list lemmas ------------------------------ --

theorem mem_dropWhile_of_neg {α : Type} {p : α → Bool} {c : α} {l : List α}
    (hc : p c = false) (h : c ∈ l) : c ∈ l.dropWhile p := by
  induction l with
  | nil => simp at h
  | cons a t ih =>
    rw [List.dropWhile_cons]
    by_cases ha : p a = true
    · rw [if_pos ha]
      rcases List.mem_cons.mp h with rfl | ht
      · rw [ha] at hc; cases hc
      · exact ih ht
    · rw [if_neg ha]; exact h

theorem dropWhile_head_false {α : Type} {p : α → Bool} {l t : List α} {c : α}
    (h : l.dropWhile p = c :: t) : p c = false := by
  induction l with
  | nil => simp [List.dropWhile] at h
  | cons a r ih =>
    rw [List.dropWhile_cons] at h
    by_cases ha : p a = true
    · exact ih (by rwa [if_pos ha] at h)
    · rw [if_neg ha] at h
      cases h
      exact Bool.not_eq_true _ ▸ (by simpa using ha)

theorem getLast?_dropWhile {α : Type} (p : α → Bool) (l : List α)
    (h : l.dropWhile p ≠ []) : (l.dropWhile p).getLast? = l.getLast? := by
  obtain ⟨t, ht⟩ := List.dropWhile_suffix (l := l) p
  conv_rhs => rw [← ht]
  rw [List.getLast?_append]
  cases hd : (l.dropWhile p).getLast? with
  | none => exact absurd (List.getLast?_eq_none_iff.mp hd) h
  | some x => simp

-- ------------------------------ trim lemmas ------------------------------ --

theorem mem_of_mem_trim {c : Char} {s : Str} (h : c ∈ trim s) : c ∈ s := by
  unfold trim at h
  rw [List.mem_reverse] at h
  have h1 : c ∈ (s.dropWhile is_ws).reverse := (List.dropWhile_sublist _).subset h
  rw [List.mem_reverse] at h1
  exact (List.dropWhile_sublist _).subset h1

theorem trim_ne_nil_of_mem {c : Char} {s : Str} (hc : is_ws c = false) (h : c ∈ s) :
    trim s ≠ [] := by
  have h1 : c ∈ s.dropWhile is_ws := mem_dropWhile_of_neg hc h
  have h2 : c ∈ (s.dropWhile is_ws).reverse.dropWhile is_ws :=
    mem_dropWhile_of_neg hc (List.mem_reverse.mpr h1)
  intro hnil
  unfold trim at hnil
  rw [List.reverse_eq_nil_iff] at hnil
  rw [hnil] at h2
  simp at h2

theorem trim_head_not_ws {s : Str} {c : Char} {t : Str} (h : trim s = c :: t) :
    is_ws c = false := by
  unfold trim at h
  have hx : (s.dropWhile is_ws).reverse.dropWhile is_ws ≠ [] := by
    intro h0; rw [h0] at h; cases h
  have h1 : ((s.dropWhile is_ws).reverse.dropWhile is_ws).getLast? =
      (s.dropWhile is_ws).head? := by
    rw [getLast?_dropWhile _ _ hx, List.getLast?_reverse]
  have h2 : ((s.dropWhile is_ws).reverse.dropWhile is_ws).getLast? = some c := by
    rw [← List.head?_reverse, h]; rfl
  rw [h1] at h2
  cases hd : s.dropWhile is_ws with
  | nil => rw [hd] at h2; cases h2
  | cons a r =>
    rw [hd] at h2
    simp only [List.head?_cons, Option.some.injEq] at h2
    subst h2
    exact dropWhile_head_false hd

theorem trim_getLast_not_ws {s : Str} {c : Char} (h : (trim s).getLast? = some c) :
    is_ws c = false := by
  unfold trim at h
  rw [List.getLast?_reverse] at h
  cases hd : (s.dropWhile is_ws).reverse.dropWhile is_ws with
  | nil => rw [hd] at h; cases h
  | cons a r =>
    rw [hd] at h
    simp only [List.head?_cons, Option.some.injEq] at h
    subst h
    exact dropWhile_head_false hd

theorem trim_eq_self_of_clean {s : Str}
    (hh : ∀ c t, s = c :: t → is_ws c = false)
    (hl : ∀ c, s.getLast? = some c → is_ws c = false) : trim s = s := by
  have h1 : s.dropWhile is_ws = s := by
    cases hs : s with
    | nil => rfl
    | cons a r =>
      rw [List.dropWhile_cons, if_neg]
      simp [hh a r hs]
  unfold trim
  rw [h1]
  have h2 : s.reverse.dropWhile is_ws = s.reverse := by
    cases hr : s.reverse with
    | nil => rfl
    | cons a r =>
      rw [List.dropWhile_cons, if_neg]
      have ha : s.getLast? = some a := by
        rw [← List.head?_reverse, hr]; rfl
      simp [hl a ha]
  rw [h2, List.reverse_reverse]

theorem trim_trim (s : Str) : trim (trim s) = trim s := by
  apply trim_eq_self_of_clean
  · intro c t h; exact trim_head_not_ws h
  · intro c h; exact trim_getLast_not_ws h

-- ------------------------------ split lemmas ----------------------------- --

theorem splitSepsAux_parts_no_sep {rest : Str} :
    ∀ {cur : Str}, (∀ c ∈ cur, is_sep c = false) →
    ∀ part ∈ splitSepsAux cur rest, ∀ c ∈ part, is_sep c = false := by
  induction rest with
  | nil =>
    intro cur hcur part hp c hc
    simp only [splitSepsAux, List.mem_singleton] at hp
    subst hp
    exact hcur c (List.mem_reverse.mp hc)
  | cons a r ih =>
    intro cur hcur part hp c hc
    by_cases ha : is_sep a = true
    · rw [splitSepsAux, if_pos ha] at hp
      rcases List.mem_cons.mp hp with rfl | hp
      · exact hcur c (List.mem_reverse.mp hc)
      · exact ih (by simp) part hp c hc
    · rw [splitSepsAux, if_neg ha] at hp
      refine ih ?_ part hp c hc
      intro x hx
      rcases List.mem_cons.mp hx with rfl | hx
      · simpa using ha
      · exact hcur x hx

theorem splitSeps_parts_no_sep {raw : Str} :
    ∀ part ∈ splitSeps raw, ∀ c ∈ part, is_sep c = false :=
  splitSepsAux_parts_no_sep (by simp)

theorem splitSepsAux_append_no_sep {a : Str} (ha : ∀ c ∈ a, is_sep c = false) :
    ∀ (cur t : Str), splitSepsAux cur (a ++ t) = splitSepsAux (a.reverse ++ cur) t := by
  induction a with
  | nil => intro cur t; simp
  | cons x xs ih =>
    intro cur t
    have hx : is_sep x = false := ha x (by simp)
    rw [List.cons_append, splitSepsAux, if_neg (by simp [hx])]
    rw [ih (fun c hc => ha c (List.mem_cons_of_mem _ hc)) (x :: cur) t]
    congr 1
    simp

theorem splitSeps_joinComma {l : List Str}
    (hsep : ∀ x ∈ l, ∀ c ∈ x, is_sep c = false) (hne : l ≠ []) :
    splitSeps (joinComma l) = l := by
  induction l with
  | nil => cases hne rfl
  | cons x xs ih =>
    cases xs with
    | nil =>
      show splitSepsAux [] (joinComma [x]) = [x]
      have hx := hsep x (by simp)
      have h1 : splitSepsAux [] (x ++ []) = splitSepsAux (x.reverse ++ []) [] :=
        splitSepsAux_append_no_sep hx [] []
      simpa [splitSepsAux, joinComma] using h1
    | cons y ys =>
      have hx := hsep x (by simp)
      have hjoin : joinComma (x :: y :: ys) = x ++ ',' :: joinComma (y :: ys) := rfl
      show splitSepsAux [] (joinComma (x :: y :: ys)) = x :: y :: ys
      rw [hjoin, splitSepsAux_append_no_sep hx [] (',' :: joinComma (y :: ys))]
      rw [splitSepsAux, if_pos (by simp [is_sep])]
      simp only [List.append_nil, List.reverse_reverse]
      congr 1
      exact ih (fun z hz => hsep z (List.mem_cons_of_mem _ hz)) (by simp)

-- ------------------------------ dedup lemmas ----------------------------- --

theorem dedupCI_loop_subset {l : List Str} :
    ∀ {seen : List Str} {x : Str}, x ∈ dedupCI_loop seen l → x ∈ l := by
  induction l with
  | nil => intro seen x hx; simp [dedupCI_loop] at hx
  | cons a r ih =>
    intro seen x hx
    rw [dedupCI_loop] at hx
    by_cases h : seen.contains (lower a)
    · rw [if_pos h] at hx
      exact List.mem_cons_of_mem _ (ih hx)
    · rw [if_neg h] at hx
      rcases List.mem_cons.mp hx with rfl | hx
      · exact List.mem_cons_self _ _
      · exact List.mem_cons_of_mem _ (ih hx)

theorem dedupCI_loop_length_le (l : List Str) :
    ∀ seen : List Str, (dedupCI_loop seen l).length ≤ l.length := by
  induction l with
  | nil => intro seen; simp [dedupCI_loop]
  | cons a r ih =>
    intro seen
    rw [dedupCI_loop]
    by_cases h : seen.contains (lower a)
    · rw [if_pos h]
      exact Nat.le_succ_of_le (ih seen)
    · rw [if_neg h]
      simpa using ih (lower a :: seen)

theorem dedupCI_loop_lower_spec (l : List Str) :
    ∀ seen : List Str, ((dedupCI_loop seen l).map lower).Nodup ∧
      ∀ y ∈ dedupCI_loop seen l, lower y ∉ seen := by
  induction l with
  | nil => intro seen; simp [dedupCI_loop]
  | cons a r ih =>
    intro seen
    rw [dedupCI_loop]
    by_cases h : seen.contains (lower a)
    · rw [if_pos h]; exact ih seen
    · rw [if_neg h]
      obtain ⟨hnd, hout⟩ := ih (lower a :: seen)
      have hna : lower a ∉ seen := fun hmem => h (List.elem_iff.mpr hmem)
      constructor
      · rw [List.map_cons, List.nodup_cons]
        refine ⟨?_, hnd⟩
        intro hmem
        obtain ⟨y, hy, hye⟩ := List.mem_map.mp hmem
        exact hout y hy (by rw [hye]; exact List.mem_cons_self _ _)
      · intro y hy
        rcases List.mem_cons.mp hy with rfl | hy
        · exact hna
        · exact fun hmem => hout y hy (List.mem_cons_of_mem _ hmem)

theorem dedupCI_loop_eq_self {l : List Str} :
    ∀ {seen : List Str}, (l.map lower).Nodup → (∀ y ∈ l, lower y ∉ seen) →
    dedupCI_loop seen l = l := by
  induction l with
  | nil => intro seen _ _; rfl
  | cons a r ih =>
    intro seen hnd hdisj
    rw [dedupCI_loop, if_neg]
    · congr 1
      rw [List.map_cons, List.nodup_cons] at hnd
      refine ih hnd.2 ?_
      intro y hy hmem
      rcases List.mem_cons.mp hmem with he | hmem'
      · exact hnd.1 (he ▸ List.mem_map_of_mem lower hy)
      · exact hdisj y (List.mem_cons_of_mem _ hy) hmem'
    · intro hc
      exact hdisj a (List.mem_cons_self _ _) (List.elem_iff.mp hc)

theorem dedupCI_eq_self {l : List Str} (hnd : (l.map lower).Nodup) :
    dedupCI l = l :=
  dedupCI_loop_eq_self hnd (by simp)

theorem dedupCI_loop_eq_firstOccurrences (l : List Str) :
    ∀ seen : List Str,
      dedupCI_loop seen l
        = firstOccurrences (l.filter (fun y => !seen.contains (lower y))) := by
  induction l with
  | nil => intro seen; simp [dedupCI_loop, firstOccurrences]
  | cons a r ih =>
    intro seen
    rw [dedupCI_loop]
    by_cases h : seen.contains (lower a)
    · rw [if_pos h, List.filter_cons_of_neg (by simpa using List.elem_iff.mp h)]
      exact ih seen
    · have hna : lower a ∉ seen := fun hm => h (List.elem_iff.mpr hm)
      rw [if_neg h, List.filter_cons_of_pos (by simpa using hna)]
      rw [firstOccurrences, ih (lower a :: seen)]
      have heq : List.filter (fun y => !(lower a :: seen).contains (lower y)) r
          = List.filter (fun y => !(lower y == lower a))
              (List.filter (fun y => !seen.contains (lower y)) r) := by
        rw [List.filter_filter]
        refine List.filter_congr ?_
        intro y _
        rw [List.contains_cons]
        cases hya : lower y == lower a <;> cases hys : seen.contains (lower y) <;>
          simp [hya, hys]
      rw [heq]

theorem dedupCI_eq_firstOccurrences (l : List Str) :
    dedupCI l = firstOccurrences l := by
  rw [dedupCI, dedupCI_loop_eq_firstOccurrences l []]
  congr 1
  simp

-- --------------------------- normalize lemmas ---------------------------- --

theorem interest_error_eq_none {banned : List Str} {it : Str} :
    interest_error banned it = none ↔
      (1 ≤ it.length ∧ it.length ≤ 50) ∧ contains_banned_words it banned = none := by
  unfold interest_error
  by_cases h : 1 ≤ it.length ∧ it.length ≤ 50
  · rw [if_neg (not_not_intro h)]
    cases hc : contains_banned_words it banned <;> simp [h, hc]
  · rw [if_pos h]
    simp [h]

theorem first_error_eq_none {banned : List Str} {items : List Str} :
    first_error banned items = none ↔
      ∀ it ∈ items, interest_error banned it = none := by
  unfold first_error
  exact List.findSome?_eq_none_iff

theorem normalize_interests_fst_eq_spec (raw : Str) (banned : List Str) :
    (normalize_interests raw banned).1 = normalizeInterestsSpec raw banned := by
  unfold normalize_interests normalizeInterestsSpec
  by_cases h0 : trim raw = []
  · rw [if_pos h0, if_pos h0]
  · rw [if_neg h0, if_neg h0]
    simp only []
    set items := ((splitSeps raw).map trim).filter (fun p => !p.isEmpty) with hitems
    by_cases h1 : items.length > 30
    · rw [if_pos h1, if_pos h1]
    · rw [if_neg h1, if_neg h1]
      by_cases hA : items.any (fun it => it.length < 1 || 50 < it.length) = true
      · obtain ⟨it, hit, hbad⟩ := List.any_eq_true.mp hA
        have hfe : first_error banned items ≠ none := by
          intro hfe
          have hgood := (interest_error_eq_none.mp (first_error_eq_none.mp hfe it hit)).1
          simp only [Bool.or_eq_true, decide_eq_true_eq] at hbad
          omega
        obtain ⟨e, he⟩ := Option.ne_none_iff_exists'.mp hfe
        rw [he, if_pos hA]
      · rw [if_neg hA]
        have hlen : ∀ it ∈ items, 1 ≤ it.length ∧ it.length ≤ 50 := by
          intro it hit
          have h2 := List.any_eq_false.mp (Bool.eq_false_iff.mpr hA) it hit
          simp only [Bool.or_eq_true, decide_eq_true_eq, not_or] at h2
          omega
        by_cases hB : items.any (fun it => (contains_banned_words it banned).isSome) = true
        · obtain ⟨it, hit, hbad⟩ := List.any_eq_true.mp hB
          have hfe : first_error banned items ≠ none := by
            intro hfe
            have h2 := (interest_error_eq_none.mp (first_error_eq_none.mp hfe it hit)).2
            rw [h2] at hbad
            cases hbad
          obtain ⟨e, he⟩ := Option.ne_none_iff_exists'.mp hfe
          rw [he, if_pos hB]
        · rw [if_neg hB]
          have hfe : first_error banned items = none := by
            rw [first_error_eq_none]
            intro it hit
            rw [interest_error_eq_none]
            refine ⟨hlen it hit, ?_⟩
            have h2 := List.any_eq_false.mp (Bool.eq_false_iff.mpr hB) it hit
            exact Option.not_isSome_iff_eq_none.mp h2
          rw [hfe]
          rw [← dedupCI_eq_firstOccurrences]
          by_cases hS : 300 < ((dedupCI items).map List.length).sum
          · rw [if_pos (by omega : ((dedupCI items).map List.length).sum > 300), if_pos hS]
          · rw [if_neg (by omega : ¬ ((dedupCI items).map List.length).sum > 300), if_neg hS]

theorem normalize_ok_cases {raw : Str} {banned : List Str} {l : List Str}
    (h : normalize_interests raw banned = (some l, none)) :
    (trim raw = [] ∧ l = []) ∨
    (l = dedupCI (((splitSeps raw).map trim).filter (fun p => !p.isEmpty)) ∧
     (((splitSeps raw).map trim).filter (fun p => !p.isEmpty)).length ≤ 30 ∧
     first_error banned (((splitSeps raw).map trim).filter (fun p => !p.isEmpty)) = none ∧
     (l.map List.length).sum ≤ 300) := by
  unfold normalize_interests at h
  by_cases h0 : trim raw = []
  · rw [if_pos h0] at h
    simp only [Prod.mk.injEq, Option.some.injEq] at h
    exact Or.inl ⟨h0, h.1.symm⟩
  · rw [if_neg h0] at h
    simp only [] at h
    set items := ((splitSeps raw).map trim).filter (fun p => !p.isEmpty) with hitems
    by_cases h1 : items.length > 30
    · rw [if_pos h1] at h; simp at h
    · rw [if_neg h1] at h
      cases hfe : first_error banned items with
      | some e => rw [hfe] at h; simp at h
      | none =>
        rw [hfe] at h
        by_cases hS : ((dedupCI items).map List.length).sum > 300
        · rw [if_pos hS] at h; simp at h
        · rw [if_neg hS] at h
          simp only [Prod.mk.injEq, Option.some.injEq] at h
          refine Or.inr ⟨h.1.symm, by omega, rfl, ?_⟩
          rw [← h.1]
          omega

theorem mem_items_props (raw : Str) {x : Str}
    (hx : x ∈ ((splitSeps raw).map trim).filter (fun p => !p.isEmpty)) :
    trim x = x ∧ x ≠ [] ∧ ∀ c ∈ x, is_sep c = false := by
  rw [List.mem_filter] at hx
  obtain ⟨hmem, hne⟩ := hx
  obtain ⟨p, hp, rfl⟩ := List.mem_map.mp hmem
  refine ⟨trim_trim p, by simpa using hne, ?_⟩
  intro c hc
  exact splitSeps_parts_no_sep p hp c (mem_of_mem_trim hc)

theorem normalize_joinComma_of_props {banned : List Str} {l : List Str}
    (htrim : ∀ x ∈ l, trim x = x) (hne : ∀ x ∈ l, x ≠ [])
    (hsep : ∀ x ∈ l, ∀ c ∈ x, is_sep c = false)
    (hnodup : (l.map lower).Nodup)
    (h30 : l.length ≤ 30)
    (herr : first_error banned l = none)
    (hsum : (l.map List.length).sum ≤ 300) :
    normalize_interests (joinComma l) banned = (some l, none) := by
  cases l with
  | nil => rfl
  | cons x xs =>
    have hxne := hne x (List.mem_cons_self _ _)
    obtain ⟨c, t, hx⟩ : ∃ c t, x = c :: t := by
      cases x with
      | nil => exact absurd rfl hxne
      | cons c t => exact ⟨c, t, rfl⟩
    have hcws : is_ws c = false := by
      refine trim_head_not_ws (s := x) (t := t) ?_
      rw [htrim x (List.mem_cons_self _ _), hx]
    have hmemj : c ∈ joinComma (x :: xs) := by
      cases xs with
      | nil => simp [joinComma, hx]
      | cons y ys => simp [joinComma, hx]
    have h0 : trim (joinComma (x :: xs)) ≠ [] := trim_ne_nil_of_mem hcws hmemj
    unfold normalize_interests
    rw [if_neg h0]
    have hsplit : splitSeps (joinComma (x :: xs)) = x :: xs :=
      splitSeps_joinComma hsep (by simp)
    rw [hsplit]
    simp only []
    have hmap : (x :: xs).map trim = x :: xs := by
      rw [List.map_congr_left htrim]; simp
    have hfilter : (x :: xs).filter (fun p => !p.isEmpty) = x :: xs :=
      List.filter_eq_self.mpr (fun a ha => by simpa using hne a ha)
    rw [hmap, hfilter]
    rw [if_neg (by omega : ¬ (x :: xs).length > 30)]
    rw [herr]
    simp only []
    rw [dedupCI_eq_self hnodup]
    rw [if_neg (by omega : ¬ ((x :: xs).map List.length).sum > 300)]

-- ------------------------------ claim C8 --------------------------------- --

/-- Claim C8: `normalize_interests` splits its input on comma/semicolon/
newline, trims each item, rejects more than 30 items, rejects any item of
length outside 1–50 or containing a banned word (case-insensitive),
deduplicates case-insensitively keeping the first occurrence's casing and
order, rejects a result whose summed character length exceeds 300, and
returns an empty list (not an error) for input that is empty after
trimming.  Stated as: the accepted/rejected verdict and the produced list
coincide with the spec-side restatement `normalizeInterestsSpec`, and
empty-after-trim input yields `(some [], none)`. -/
theorem claim_C8_normalize_interests (raw : Str) (banned : List Str) :
    (normalize_interests raw banned).1 = normalizeInterestsSpec raw banned ∧
    (trim raw = [] → normalize_interests raw banned = (some [], none)) := by
  refine ⟨normalize_interests_fst_eq_spec raw banned, ?_⟩
  intro h0
  unfold normalize_interests
  rw [if_pos h0]

/-- Witness for C8 at concrete inputs (scenario D input and an
all-whitespace input). -/
theorem claim_C8_normalize_interests_witness :
    (normalize_interests "go, Go, rust,  , music".toList ["rust".toList]).1
        = normalizeInterestsSpec "go, Go, rust,  , music".toList ["rust".toList] ∧
    normalize_interests "   ".toList [] = (some [], none) :=
  ⟨(claim_C8_normalize_interests "go, Go, rust,  , music".toList ["rust".toList]).1,
   (claim_C8_normalize_interests "   ".toList []).2 (by decide)⟩

-- ------------------------------ claim C9 --------------------------------- --

/-- Claim C9: `normalize_interests` is idempotent — whenever it succeeds
with list `l`, re-normalizing the string re-joined from `l` (same banned
word configuration) succeeds and returns the same list `l`. -/
theorem claim_C9_normalize_interests_idempotent (raw : Str) (banned : List Str)
    (l : List Str) (h : normalize_interests raw banned = (some l, none)) :
    normalize_interests (joinComma l) banned = (some l, none) := by
  rcases normalize_ok_cases h with ⟨-, rfl⟩ | ⟨hl, h30, hfe, hsum⟩
  · rfl
  · set items := ((splitSeps raw).map trim).filter (fun p => !p.isEmpty) with hitems
    have hsub : ∀ x ∈ l, x ∈ items := by
      intro x hx; rw [hl] at hx; exact dedupCI_loop_subset hx
    have hprops := fun x hx => mem_items_props raw (hsub x hx)
    refine normalize_joinComma_of_props ?_ ?_ ?_ ?_ ?_ ?_ hsum
    · exact fun x hx => (hprops x hx).1
    · exact fun x hx => (hprops x hx).2.1
    · exact fun x hx => (hprops x hx).2.2
    · rw [hl]; exact (dedupCI_loop_lower_spec items []).1
    · rw [hl]
      calc (dedupCI items).length ≤ items.length := dedupCI_loop_length_le items []
        _ ≤ 30 := h30
    · rw [first_error_eq_none]
      intro it hit
      exact first_error_eq_none.mp hfe it (hsub it hit)

/-- Witness for C9: re-normalizing the output of the scenario D success
case returns the same list. -/
theorem claim_C9_normalize_interests_idempotent_witness :
    normalize_interests (joinComma ["go".toList, "music".toList]) ["rust".toList]
      = (some ["go".toList, "music".toList], none) :=
  claim_C9_normalize_interests_idempotent "go, Go, music".toList ["rust".toList]
    ["go".toList, "music".toList] (by decide)

-- --------------------------- handler step lemmas ------------------------- --

theorem handle_code_otps_cases (s : Settings) (now : Nat) (db : DB) (text : Str) :
    (handle_code s now db text).1.otps = db.otps ∨
    ((handle_code s now db text).2 = .authSuccess ∧
      ∃ o rest, db.otps = o :: rest ∧ o.used_at = none ∧
        (handle_code s now db text).1.otps = { o with used_at := some now } :: rest) := by
  unfold handle_code
  by_cases hd : ¬ (isDigitStr text ∧ 4 ≤ text.length ∧ text.length ≤ 8)
  · rw [if_pos hd]; left; rfl
  · rw [if_neg hd]
    simp only []
    cases hh : db.otps.head? with
    | none => left; rfl
    | some o =>
      simp only []
      by_cases he : o.expires_at ≤ now
      · rw [if_pos he]; left; rfl
      · rw [if_neg he]
        cases hu : o.used_at with
        | some u => left; rfl
        | none =>
          by_cases hc : text ≠ o.code
          · rw [if_pos hc]
            simp only []
            by_cases hmax : s.otp_max_attempts < db.user.otp_attempts + 1
            · rw [if_pos hmax]; left; rfl
            · rw [if_neg hmax]; left; rfl
          · rw [if_neg hc]
            right
            obtain ⟨rest, hrest⟩ : ∃ rest, db.otps = o :: rest := by
              cases hts : db.otps with
              | nil => rw [hts] at hh; cases hh
              | cons a r =>
                rw [hts] at hh
                simp only [List.head?_cons, Option.some.injEq] at hh
                exact ⟨r, by rw [hh]⟩
            refine ⟨rfl, o, rest, hrest, hu, ?_⟩
            simp only [hrest, markHeadUsed]

theorem handle_code_used_head (s : Settings) (now : Nat) (db : DB) (text : Str)
    {o : OtpRec} {u : Nat} (ho : db.otps.head? = some o) (hu : o.used_at = some u) :
    (handle_code s now db text).2 ≠ .authSuccess ∧
      (handle_code s now db text).1.otps = db.otps := by
  unfold handle_code
  by_cases hd : ¬ (isDigitStr text ∧ 4 ≤ text.length ∧ text.length ≤ 8)
  · rw [if_pos hd]; exact ⟨by simp, rfl⟩
  · rw [if_neg hd]
    simp only []
    rw [ho]
    simp only []
    by_cases he : o.expires_at ≤ now
    · rw [if_pos he]; exact ⟨by simp, rfl⟩
    · rw [if_neg he, hu]
      exact ⟨by simp, rfl⟩

theorem on_email_or_code_code_stage (s : Settings) (db : DB) (now : Nat)
    (fc fs input : Str)
    (h1 : db.user.stage ∈ codeStages) (h2 : db.user.status ≠ .blocked) :
    on_email_or_code s db now fc fs input =
      some (handle_code s now
        { db with user := { db.user with last_activity := now } } (trim input)) := by
  simp only [codeStages, List.mem_cons, List.not_mem_nil, or_false] at h1
  rcases h1 with h | h <;>
    simp [on_email_or_code, regStages, emailStages, codeStages, h, h2]

theorem on_email_or_code_email_stage (s : Settings) (db : DB) (now : Nat)
    (fc fs input : Str)
    (h1 : db.user.stage ∈ emailStages) (h2 : db.user.status ≠ .blocked) :
    on_email_or_code s db now fc fs input =
      some (handle_email s now fc fs
        { db with user := { db.user with last_activity := now } } (trim input)) := by
  simp only [emailStages, List.mem_cons, List.not_mem_nil, or_false] at h1
  rcases h1 with h | h | h <;>
    simp [on_email_or_code, regStages, emailStages, h, h2]

-- ------------------------------ claim C1 --------------------------------- --

/-- Claim C1: once a one-time code's `used_at` is set, verification rejects
every submitted value (including the code's own original value) and leaves
the stored codes untouched; and any verification step either leaves the
codes untouched or succeeds exactly by flipping the consulted code's
`used_at` from `none` to `some now` — so a verification can succeed at
most once per code, and the successful verification sets `used_at`. -/
theorem claim_C1_used_code_never_validates (s : Settings) (db : DB) (now : Nat)
    (fc fs input : Str)
    (h1 : db.user.stage ∈ codeStages) (h2 : db.user.status ≠ .blocked) :
    (∀ o u, db.otps.head? = some o → o.used_at = some u →
      ∃ db' r, on_email_or_code s db now fc fs input = some (db', r) ∧
        r ≠ .authSuccess ∧ db'.otps = db.otps) ∧
    (∀ db' r, on_email_or_code s db now fc fs input = some (db', r) →
      db'.otps = db.otps ∨
      (r = .authSuccess ∧ ∃ o rest, db.otps = o :: rest ∧ o.used_at = none ∧
        db'.otps = { o with used_at := some now } :: rest)) := by
  have hstep := on_email_or_code_code_stage s db now fc fs input h1 h2
  constructor
  · intro o u ho hu
    have hh := handle_code_used_head s now
      { db with user := { db.user with last_activity := now } } (trim input)
      (o := o) (u := u) ho hu
    exact ⟨_, _, by rw [hstep, Prod.mk.eta], hh.1, hh.2⟩
  · intro db' r heq
    rw [hstep] at heq
    have h3 := Option.some.inj heq
    have hcases := handle_code_otps_cases s now
      { db with user := { db.user with last_activity := now } } (trim input)
    rw [h3] at hcases
    simpa using hcases

/-- Witness for C1: the fixture account submits the original code of an
already-used one-time code and is rejected with the codes untouched. -/
theorem claim_C1_used_code_never_validates_witness :
    ∃ db' r, on_email_or_code exSettings
        { exDb with otps := [{ exOtp with used_at := some 20 }] } 50
        "999999".toList "s2".toList "123456".toList = some (db', r) ∧
      r ≠ .authSuccess ∧ db'.otps = [{ exOtp with used_at := some 20 }] :=
  (claim_C1_used_code_never_validates exSettings
      { exDb with otps := [{ exOtp with used_at := some 20 }] } 50
      "999999".toList "s2".toList "123456".toList (by decide) (by decide)).1
    { exOtp with used_at := some 20 } 20 (by decide) (by decide)

-- ------------------------------ claim C10 -------------------------------- --

/-- Claim C10: at a code-entry stage, a non-blocked account submitting text
that is not a 4–8 digit string is only re-prompted: `otp_attempts`, stage
and status are unchanged, so such input can never contribute to a
lockout. -/
theorem claim_C10_nondigit_code_input_harmless (s : Settings) (db : DB)
    (now : Nat) (fc fs input : Str)
    (h1 : db.user.stage ∈ codeStages) (h2 : db.user.status ≠ .blocked)
    (hbad : ¬ (isDigitStr (trim input) ∧ 4 ≤ (trim input).length ∧
      (trim input).length ≤ 8)) :
    ∃ db', on_email_or_code s db now fc fs input = some (db', .expectDigits) ∧
      db'.user.otp_attempts = db.user.otp_attempts ∧
      db'.user.stage = db.user.stage ∧
      db'.user.status = db.user.status ∧
      db'.attempts = db.attempts ∧ db'.otps = db.otps := by
  rw [on_email_or_code_code_stage s db now fc fs input h1 h2]
  unfold handle_code
  rw [if_pos hbad]
  exact ⟨_, rfl, rfl, rfl, rfl, rfl, rfl⟩

/-- Witness for C10: the letters `abc` at the code stage are re-prompted
with all counters unchanged. -/
theorem claim_C10_nondigit_code_input_harmless_witness :
    ∃ db', on_email_or_code exSettings exDb 50 "999999".toList "s2".toList
        "abc".toList = some (db', .expectDigits) ∧
      db'.user.otp_attempts = exDb.user.otp_attempts ∧
      db'.user.stage = exDb.user.stage ∧
      db'.user.status = exDb.user.status ∧
      db'.attempts = exDb.attempts ∧ db'.otps = exDb.otps :=
  claim_C10_nondigit_code_input_harmless exSettings exDb 50
    "999999".toList "s2".toList "abc".toList (by decide) (by decide) (by decide)

-- ------------------------------ claim C5 --------------------------------- --

/-- Claim C5: an e-mail already bound to a different account is rejected
with the distinct "already taken" outcome regardless of validity, without
incrementing `email_attempts`, and with stage and status unchanged. -/
theorem claim_C5_taken_email_rejected (s : Settings) (db : DB) (now : Nat)
    (fc fs input : Str)
    (h1 : db.user.stage ∈ emailStages) (h2 : db.user.status ≠ .blocked)
    (htaken : trim input ∈ db.other_emails) :
    ∃ db', on_email_or_code s db now fc fs input = some (db', .emailTaken) ∧
      db'.user.email_attempts = db.user.email_attempts ∧
      db'.user.stage = db.user.stage ∧
      db'.user.status = db.user.status := by
  rw [on_email_or_code_email_stage s db now fc fs input h1 h2]
  unfold handle_email
  simp only []
  rw [if_pos htaken]
  exact ⟨_, rfl, rfl, rfl, rfl⟩

/-- Witness for C5: an invalid-format e-mail equal to another account's
bound address is reported as taken with counters untouched. -/
theorem claim_C5_taken_email_rejected_witness :
    ∃ db', on_email_or_code exSettings
        { exDb with
            user := { exUser with stage := .verifying_email }
            other_emails := ["b@@corp".toList] } 50
        "999999".toList "s2".toList " b@@corp ".toList = some (db', .emailTaken) ∧
      db'.user.email_attempts = 0 ∧
      db'.user.stage = .verifying_email ∧
      db'.user.status = .active := by
  have h := claim_C5_taken_email_rejected exSettings
    { exDb with
        user := { exUser with stage := .verifying_email }
        other_emails := ["b@@corp".toList] } 50
    "999999".toList "s2".toList " b@@corp ".toList (by decide) (by decide) (by decide)
  simpa using h

-- ------------------------------ claim C6 --------------------------------- --

/-- Claim C6: a resend request arriving less than `cooldown` seconds after
`last_sent_at` of the current unexpired unused code changes nothing — no
`resend_count` bump, no `last_sent_at` refresh, no new code — and is
answered as already-in-flight (`delivered = true` with the cooldown
advisory), not as an error. -/
theorem claim_C6_resend_cooldown_noop (s : Settings) (now : Nat)
    (fc fs : Str) (otps : List OtpRec) (o : OtpRec)
    (hfu : firstUnused otps = some o)
    (hexp : now < o.expires_at)
    (hcd : now < o.last_sent_at + s.otp_cooldown_seconds) :
    send_or_resend_otp s now fc fs otps = (otps, true, some .cooldown) := by
  unfold send_or_resend_otp
  rw [hfu]
  simp only []
  rw [if_pos hexp, if_pos hcd]

/-- Witness for C6: a resend 40 seconds after issuance with a 120-second
cooldown leaves the code rows unchanged. -/
theorem claim_C6_resend_cooldown_noop_witness :
    send_or_resend_otp exSettings 50 "999999".toList "s2".toList [exOtp]
      = ([exOtp], true, some .cooldown) :=
  claim_C6_resend_cooldown_noop exSettings 50 "999999".toList "s2".toList
    [exOtp] exOtp (by decide) (by decide) (by decide)

-- --------------------------- ledger step lemmas -------------------------- --

theorem log_attempt_head (typ v : Str) (l : List AuthAttemptRec) :
    (log_attempt typ v l).head? = some ⟨typ, v⟩ := by
  simp [log_attempt, pruneTyp]

theorem handle_email_attempts (s : Settings) (now : Nat) (fc fs : Str)
    (db : DB) (text : Str) :
    (handle_email s now fc fs db text).1.attempts
      = log_attempt emailT text db.attempts := by
  unfold handle_email
  simp only []
  by_cases ht : text ∈ db.other_emails
  · rw [if_pos ht]
  · rw [if_neg ht]
    cases hv : validate_email text s.email_regex s.allowed_domains with
    | some e =>
      simp only []
      by_cases hm : s.email_max_attempts < db.user.email_attempts + 1
      · rw [if_pos hm]
      · rw [if_neg hm]
    | none => rfl

theorem handle_code_attempts (s : Settings) (now : Nat) (db : DB) (text : Str)
    (hok : isDigitStr text ∧ 4 ≤ text.length ∧ text.length ≤ 8) :
    (handle_code s now db text).1.attempts = log_attempt otpT text db.attempts := by
  unfold handle_code
  rw [if_neg (not_not_intro hok)]
  simp only []
  cases hh : db.otps.head? with
  | none => rfl
  | some o =>
    simp only []
    by_cases he : o.expires_at ≤ now
    · rw [if_pos he]
    · rw [if_neg he]
      cases hu : o.used_at with
      | some u => rfl
      | none =>
        by_cases hc : text ≠ o.code
        · rw [if_pos hc]
          simp only []
          by_cases hmax : s.otp_max_attempts < db.user.otp_attempts + 1
          · rw [if_pos hmax]
          · rw [if_neg hmax]
        · rw [if_neg hc]

-- ------------------------------ claim C7 --------------------------------- --

/-- Claim C7 (amended): every submitted e-mail value at an e-mail stage,
and every submitted code value passing the 4–8-digit format pre-check, is
appended to the attempt ledger (newest first, with its raw value and
category, pruned to 3 per category) before the reply — including the
rejection that triggers a block; code text failing the format pre-check is
re-prompted without a ledger append. -/
theorem claim_C7_ledger_appends (s : Settings) (db : DB) (now : Nat)
    (fc fs input : Str) (h2 : db.user.status ≠ .blocked) :
    (∀ t v l, (log_attempt t v l).head? = some ⟨t, v⟩) ∧
    (db.user.stage ∈ emailStages →
      ∃ db' r, on_email_or_code s db now fc fs input = some (db', r) ∧
        db'.attempts = log_attempt emailT (trim input) db.attempts) ∧
    (db.user.stage ∈ codeStages →
      (isDigitStr (trim input) ∧ 4 ≤ (trim input).length ∧
        (trim input).length ≤ 8) →
      ∃ db' r, on_email_or_code s db now fc fs input = some (db', r) ∧
        db'.attempts = log_attempt otpT (trim input) db.attempts) ∧
    (db.user.stage ∈ codeStages →
      ¬ (isDigitStr (trim input) ∧ 4 ≤ (trim input).length ∧
        (trim input).length ≤ 8) →
      ∃ db', on_email_or_code s db now fc fs input = some (db', .expectDigits) ∧
        db'.attempts = db.attempts) := by
  refine ⟨log_attempt_head, ?_, ?_, ?_⟩
  · intro h1
    rw [on_email_or_code_email_stage s db now fc fs input h1 h2]
    exact ⟨_, _, by rw [Prod.mk.eta],
      handle_email_attempts s now fc fs
        { db with user := { db.user with last_activity := now } } (trim input)⟩
  · intro h1 hok
    rw [on_email_or_code_code_stage s db now fc fs input h1 h2]
    exact ⟨_, _, by rw [Prod.mk.eta],
      handle_code_attempts s now
        { db with user := { db.user with last_activity := now } } (trim input) hok⟩
  · intro h1 hbad
    rw [on_email_or_code_code_stage s db now fc fs input h1 h2]
    unfold handle_code
    rw [if_pos hbad]
    exact ⟨_, rfl, rfl⟩

/-- Counterexample for C7 as stated: at the code stage the rejected value
`abc` (rejection reason: format pre-check) is answered with a re-prompt
while the attempt ledger stays empty — no `AttemptRecord` is appended for
this rejected code value. -/
theorem claim_C7_counterexample :
    ((on_email_or_code exSettings exDb 50 "999999".toList "s2".toList
        "abc".toList).map (fun r => (r.2, r.1.attempts)))
      = some (.expectDigits, []) := by
  decide

/-- Witness for C7 (amended): a wrong-but-well-formed code is appended to
the ledger with category `otp` before the reply. -/
theorem claim_C7_ledger_appends_witness :
    ∃ db' r, on_email_or_code exSettings exDb 50 "999999".toList "s2".toList
        "000000".toList = some (db', r) ∧
      db'.attempts = log_attempt otpT "000000".toList exDb.attempts :=
  (claim_C7_ledger_appends exSettings exDb 50 "999999".toList "s2".toList
      "000000".toList (by decide)).2.2.1 (by decide) (by decide)

-- ------------------------------ claim C2 --------------------------------- --

/-- Counterexample for C2 as stated: with no admin chat configured
(`admin_chat_id = none`), the 4th consecutive wrong code under
`otp_max_attempts = 3` does set `status = blocked` and freeze the stage to
`verifying_code_error`, yet writes zero `admin_log` records — not
"exactly one EscalationEvent". -/
theorem claim_C2_counterexample :
    ((on_email_or_code exSettings exDb 50 "999999".toList "s2".toList
        "000000".toList).map
      (fun r => (r.1.user.status, r.1.user.stage, r.1.admin_log.length, r.2)))
      = some (.blocked, .verifying_code_error, 0, .blockedOtp) := by
  decide

/-- Claim C2 (amended): whenever an invalid submission pushes the
per-category attempt counter beyond its configured maximum, status becomes
`blocked`, the stage becomes the category's `*_error` variant, and — when
an admin chat is configured — exactly one `admin_log` escalation record
with the category reason and at most 3 ledger values is written (none is
written when no admin chat is configured, as the counterexample shows). -/
theorem claim_C2_block_escalation (s : Settings) (db : DB) (now : Nat)
    (fc fs input : Str) (cid : Int)
    (hcid : s.admin_chat_id = some cid) (h2 : db.user.status ≠ .blocked) :
    (db.user.stage ∈ emailStages → trim input ∉ db.other_emails →
      validate_email (trim input) s.email_regex s.allowed_domains ≠ none →
      s.email_max_attempts < db.user.email_attempts + 1 →
      ∃ db' rec, on_email_or_code s db now fc fs input = some (db', .blockedEmail) ∧
        db'.user.status = .blocked ∧ db'.user.stage = .verifying_email_error ∧
        db'.admin_log = rec :: db.admin_log ∧
        rec.reason = reasonEmail ∧ rec.typ = emailT ∧ rec.attempts.length ≤ 3) ∧
    (db.user.stage ∈ codeStages →
      (isDigitStr (trim input) ∧ 4 ≤ (trim input).length ∧
        (trim input).length ≤ 8) →
      ∀ o, db.otps.head? = some o → ¬ o.expires_at ≤ now → o.used_at = none →
      trim input ≠ o.code → s.otp_max_attempts < db.user.otp_attempts + 1 →
      ∃ db' rec, on_email_or_code s db now fc fs input = some (db', .blockedOtp) ∧
        db'.user.status = .blocked ∧ db'.user.stage = .verifying_code_error ∧
        db'.admin_log = rec :: db.admin_log ∧
        rec.reason = reasonOtp ∧ rec.typ = otpT ∧ rec.attempts.length ≤ 3) := by
  constructor
  · intro h1 htaken hval hmax
    rw [on_email_or_code_email_stage s db now fc fs input h1 h2]
    unfold handle_email
    simp only []
    rw [if_neg htaken]
    obtain ⟨e, he⟩ := Option.ne_none_iff_exists'.mp hval
    rw [he]
    simp only []
    rw [if_pos hmax]
    refine ⟨_, ⟨0, "auth_block_request".toList, reasonEmail, emailT,
        (last_attempts emailT (log_attempt emailT (trim input) db.attempts)).map
          (·.value)⟩,
      rfl, rfl, rfl, ?_, rfl, rfl, ?_⟩
    · unfold notify_admin_on_block
      rw [hcid]
    · simp only [last_attempts, List.length_map, List.length_take]
      omega
  · intro h1 hok o ho he hu hc hmax
    rw [on_email_or_code_code_stage s db now fc fs input h1 h2]
    unfold handle_code
    rw [if_neg (not_not_intro hok)]
    simp only []
    rw [ho]
    simp only []
    rw [if_neg he, hu, if_pos hc]
    simp only []
    rw [if_pos hmax]
    refine ⟨_, ⟨0, "auth_block_request".toList, reasonOtp, otpT,
        (last_attempts otpT (log_attempt otpT (trim input) db.attempts)).map
          (·.value)⟩,
      rfl, rfl, rfl, ?_, rfl, rfl, ?_⟩
    · unfold notify_admin_on_block
      rw [hcid]
    · simp only [last_attempts, List.length_map, List.length_take]
      omega

/-- Witness for C2 (amended): with an admin chat configured, the 4th wrong
code blocks the fixture account, freezes the stage and writes exactly one
escalation record with the OTP reason. -/
theorem claim_C2_block_escalation_witness :
    ∃ db' rec, on_email_or_code exSettingsAdmin exDb 50 "999999".toList
        "s2".toList "000000".toList = some (db', .blockedOtp) ∧
      db'.user.status = .blocked ∧ db'.user.stage = .verifying_code_error ∧
      db'.admin_log = rec :: exDb.admin_log ∧
      rec.reason = reasonOtp ∧ rec.typ = otpT ∧ rec.attempts.length ≤ 3 :=
  (claim_C2_block_escalation exSettingsAdmin exDb 50 "999999".toList
      "s2".toList "000000".toList 99 (by decide) (by decide)).2
    (by decide) (by decide) exOtp (by decide) (by decide) (by decide)
    (by decide) (by decide)

-- ------------------------------ claim C3 --------------------------------- --

theorem on_profile_text_skip (s : Settings) (db : DB) (now : Nat) (input : Str)
    (h : db.user.stage ∉ profileTextStages) :
    on_profile_text s db now input = none := by
  unfold on_profile_text
  rw [if_neg h]

theorem on_email_or_code_skip (s : Settings) (db : DB) (now : Nat)
    (fc fs input : Str) (h : db.user.stage ∉ regStages) :
    on_email_or_code s db now fc fs input = none := by
  unfold on_email_or_code
  rw [if_neg h]

/-- Counterexample for C3 as stated: a blocked account's inbound text does
get the single blocked notice, but persisted account state mutates — the
stored `last_activity` field changes from 0 to the event time 5. -/
theorem claim_C3_counterexample :
    ((dispatch_text exSettings exDbBlocked 5 "999999".toList "s2".toList
        "x".toList).map (fun r => (r.2, r.1.user.last_activity)))
      = some (Sum.inr .blockedNotice, 5) ∧
    exDbBlocked.user.last_activity = 0 := by
  decide

/-- Claim C3 (amended): for a blocked account, an inbound text at a
registration or profile text-collection stage, and the `/start` command,
each yield a single blocked notice, and the only persisted mutation is the
`last_activity` refresh (plus, on `/start`, synchronizing the stored
username); text at any other stage is dropped by both text handlers with
no reply and no mutation. -/
theorem claim_C3_blocked_notice (s : Settings) (db : DB) (now : Nat)
    (fc fs input : Str) (uname : Option Str)
    (hb : db.user.status = .blocked) :
    (db.user.stage ∈ profileTextStages →
      dispatch_text s db now fc fs input =
        some ({ db with user := { db.user with last_activity := now } },
          Sum.inl .blockedNotice)) ∧
    (db.user.stage ∈ regStages →
      dispatch_text s db now fc fs input =
        some ({ db with user := { db.user with last_activity := now } },
          Sum.inr .blockedNotice)) ∧
    (db.user.stage ∉ profileTextStages → db.user.stage ∉ regStages →
      dispatch_text s db now fc fs input = none) ∧
    ((cmd_start db now uname).2 = .blockedNotice ∧
      ∃ u', (cmd_start db now uname).1 =
        { db with user := { db.user with username := u', last_activity := now } }) := by
  refine ⟨?_, ?_, ?_, ?_⟩
  · intro h1
    simp only [profileTextStages, List.mem_cons, List.not_mem_nil, or_false] at h1
    rcases h1 with h | h | h | h <;>
      simp [dispatch_text, on_profile_text, profileTextStages, h, hb]
  · intro h1
    have hnp : db.user.stage ∉ profileTextStages := by
      simp only [regStages, List.mem_cons, List.not_mem_nil, or_false] at h1
      rcases h1 with h | h | h | h | h <;> simp [profileTextStages, h]
    rw [dispatch_text, on_profile_text_skip s db now input hnp]
    simp only [regStages, List.mem_cons, List.not_mem_nil, or_false] at h1
    rcases h1 with h | h | h | h | h <;>
      simp [on_email_or_code, regStages, h, hb]
  · intro h1 h2
    rw [dispatch_text, on_profile_text_skip s db now input h1,
      on_email_or_code_skip s db now fc fs input h2]
    rfl
  · cases uname with
    | none =>
      refine ⟨?_, db.user.username, ?_⟩ <;> simp [cmd_start, hb]
    | some u =>
      by_cases hu : db.user.username ≠ some u
      · refine ⟨?_, some u, ?_⟩ <;> simp [cmd_start, hb, hu]
      · refine ⟨?_, db.user.username, ?_⟩ <;> simp [cmd_start, hb, hu]

/-- Witness for C3 (amended): the blocked fixture account's text event at
the e-mail stage yields exactly the blocked notice with only
`last_activity` refreshed, and `/start` answers with the blocked notice. -/
theorem claim_C3_blocked_notice_witness :
    dispatch_text exSettings exDbBlocked 5 "999999".toList "s2".toList
        "x".toList =
      some ({ exDbBlocked with
          user := { exDbBlocked.user with last_activity := 5 } },
        Sum.inr .blockedNotice) ∧
    (cmd_start exDbBlocked 5 none).2 = .blockedNotice :=
  ⟨(claim_C3_blocked_notice exSettings exDbBlocked 5 "999999".toList
      "s2".toList "x".toList none (by decide)).2.1 (by decide),
   (claim_C3_blocked_notice exSettings exDbBlocked 5 "999999".toList
      "s2".toList "x".toList none (by decide)).2.2.2.1⟩

-- ------------------------------ claim C4 --------------------------------- --

/-- Counterexample for C4 as stated: from `profile_review`, selecting the
name field does jump to `profile_name`, but successfully completing the
name moves the stage to `profile_photo` — the next field in sequence — not
back to `profile_review`. -/
theorem claim_C4_counterexample :
    (cb_prof_edit_field exDbReview .name).1.user.stage = .profile_name ∧
    ((on_profile_text exSettings (cb_prof_edit_field exDbReview .name).1 60
        "Alice".toList).map (fun r => (r.1.user.stage, r.2)))
      = some (.profile_photo, .askPhoto) := by
  decide

/-- Claim C4 (amended): selecting a field from review jumps the stage to
that field's collection state (only the stage changes), but completing a
single field does not return to review — it advances to the next field in
the name → photo → bio → age → interests sequence; only completing
interests lands on `profile_review`. -/
theorem claim_C4_edit_from_review (s : Settings) (db : DB) (now : Nat)
    (input : Str) (field : EditField) (h2 : db.user.status ≠ .blocked) :
    (cb_prof_edit_field db field).1 =
      { db with user := { db.user with stage := fieldStage field } } ∧
    (db.user.stage = .profile_name → 2 ≤ (trim input).length →
      (trim input).length ≤ 100 →
      contains_banned_words (trim input) s.banned_words = none →
      ∃ db', on_profile_text s db now input = some (db', .askPhoto) ∧
        db'.user.stage = .profile_photo) ∧
    (db.user.stage = .profile_bio → (trim input).length ≤ 500 →
      contains_banned_words (trim input) s.banned_words = none →
      ∃ db', on_profile_text s db now input = some (db', .askAge) ∧
        db'.user.stage = .profile_age) ∧
    (db.user.stage = .profile_age → isDigitStr (trim input) →
      18 ≤ natOfDigits (trim input) → natOfDigits (trim input) ≤ 50 →
      ∃ db', on_profile_text s db now input = some (db', .askInterests) ∧
        db'.user.stage = .profile_interests) ∧
    (db.user.stage = .profile_interests →
      (normalize_interests (trim input) s.banned_words).2 = none →
      ∃ db', on_profile_text s db now input = some (db', .reviewPreview) ∧
        db'.user.stage = .profile_review) := by
  refine ⟨?_, ?_, ?_, ?_, ?_⟩
  · cases field <;> rfl
  · intro h1 hlen1 hlen2 hban
    simp [on_profile_text, profileTextStages, h1, h2, hlen1, hlen2, hban]
  · intro h1 hlen hban
    have hlt : ¬ 500 < (trim input).length := by omega
    simp [on_profile_text, profileTextStages, h1, h2, hban, hlt]
  · intro h1 hdig hlo hhi
    simp [on_profile_text, profileTextStages, h1, h2, hdig, hlo, hhi]
  · intro h1 hnorm
    rcases hn : normalize_interests (trim input) s.banned_words with ⟨li, err⟩
    rw [hn] at hnorm
    simp only [] at hnorm
    subst hnorm
    simp [on_profile_text, profileTextStages, h1, h2, hn]

/-- Witness for C4 (amended): editing the name from review and submitting
`Alice` lands on the photo step. -/
theorem claim_C4_edit_from_review_witness :
    (cb_prof_edit_field exDbReview .name).1 =
      { exDbReview with
        user := { exDbReview.user with stage := .profile_name } } ∧
    ∃ db', on_profile_text exSettings
        { exDbReview with
          user := { exDbReview.user with stage := .profile_name } } 60
        "Alice".toList = some (db', .askPhoto) ∧
      db'.user.stage = .profile_photo :=
  ⟨(claim_C4_edit_from_review exSettings exDbReview 60 "Alice".toList .name
      (by decide)).1,
   (claim_C4_edit_from_review exSettings
      { exDbReview with
        user := { exDbReview.user with stage := .profile_name } } 60
      "Alice".toList .name (by decide)).2.1 rfl (by decide) (by decide)
      (by decide)⟩

end RCB
